import Mathlib

/-
Verification of the authenticated radix trie (`src/main.rs`): a byte-branching
trie whose nodes carry cached SHA-256 digests of their canonical encoding.
Bytes are modelled as `Nat`, the `HashMap<u8, Box<Node>>` child map as a
function `Nat -> Option Node`, and every panic of the source (`split_at` /
`remove` on an empty vector, `Option::unwrap` on a missing digest) as an
explicit `Except Unit` / `Option` failure. The SHA-256 engine and the LEB128
varint encoder used by the source are reproduced in full.
-/

set_option maxRecDepth 100000

namespace AuthTree

/-- Addition modulo 2^32, the wrap-around arithmetic of the hash's 32-bit words. -/
def add32 (x y : Nat) : Nat := (x + y) % 4294967296

/-- Right rotation of a 32-bit word (input assumed < 2^32). -/
def rotr32 (n x : Nat) : Nat := (x >>> n) ||| ((x <<< (32 - n)) % 4294967296)

def bigSigma0 (x : Nat) : Nat := rotr32 2 x ^^^ rotr32 13 x ^^^ rotr32 22 x

def bigSigma1 (x : Nat) : Nat := rotr32 6 x ^^^ rotr32 11 x ^^^ rotr32 25 x

def smallSigma0 (x : Nat) : Nat := rotr32 7 x ^^^ rotr32 18 x ^^^ (x >>> 3)

def smallSigma1 (x : Nat) : Nat := rotr32 17 x ^^^ rotr32 19 x ^^^ (x >>> 10)

def chFn (e f g : Nat) : Nat := (e &&& f) ^^^ ((e ^^^ 4294967295) &&& g)

def majFn (a b c : Nat) : Nat := (a &&& b) ^^^ (a &&& c) ^^^ (b &&& c)

/-- The 64 SHA-256 round constants. -/
def sha256K : List Nat :=
  [1116352408, 1899447441, 3049323471, 3921009573, 961987163, 1508970993,
   2453635748, 2870763221, 3624381080, 310598401, 607225278, 1426881987,
   1925078388, 2162078206, 2614888103, 3248222580, 3835390401, 4022224774,
   264347078, 604807628, 770255983, 1249150122, 1555081692, 1996064986,
   2554220882, 2821834349, 2952996808, 3210313671, 3336571891, 3584528711,
   113926993, 338241895, 666307205, 773529912, 1294757372, 1396182291,
   1695183700, 1986661051, 2177026350, 2456956037, 2730485921, 2820302411,
   3259730800, 3345764771, 3516065817, 3600352804, 4094571909, 275423344,
   430227734, 506948616, 659060556, 883997877, 958139571, 1322822218,
   1537002063, 1747873779, 1955562222, 2024104815, 2227730452, 2361852424,
   2428436474, 2756734187, 3204031479, 3329325298]

/-- The initial SHA-256 state words. -/
def sha256H0 : List Nat :=
  [1779033703, 3144134277, 1013904242, 2773480762,
   1359893119, 2600822924, 528734635, 1541459225]

/-- Big-endian byte decomposition of a number into the given number of bytes. -/
def toBytesBE : Nat → Nat → List Nat
  | 0, _ => []
  | k + 1, x => toBytesBE k (x / 256) ++ [x % 256]

/-- Group a byte list into big-endian 32-bit words. -/
def toWordsBE : List Nat → List Nat
  | a :: b :: c :: d :: rest => (((a * 256 + b) * 256 + c) * 256 + d) :: toWordsBE rest
  | _ => []

/-- SHA-256 padding: append 0x80, zeros, and the 64-bit big-endian bit length. -/
def padMessage (msg : List Nat) : List Nat :=
  let len := msg.length
  let padZeros := (119 - len % 64) % 64
  msg ++ [0x80] ++ List.replicate padZeros 0 ++ toBytesBE 8 (8 * len)

/-- Extend 16 message-schedule words to 64. -/
def extendWords (w : List Nat) : List Nat :=
  (List.range 48).foldl (fun w i =>
    w ++ [add32 (add32 (w.getD i 0) (smallSigma0 (w.getD (i + 1) 0)))
            (add32 (w.getD (i + 9) 0) (smallSigma1 (w.getD (i + 14) 0)))]) w

/-- One SHA-256 compression round over the 8-word state. -/
def sha256Round (w : List Nat) (st : List Nat) (i : Nat) : List Nat :=
  match st with
  | [a, b, c, d, e, f, g, h] =>
    let t1 := add32 (add32 (add32 h (bigSigma1 e)) (add32 (chFn e f g) (sha256K.getD i 0))) (w.getD i 0)
    let t2 := add32 (bigSigma0 a) (majFn a b c)
    [add32 t1 t2, a, b, c, add32 d t1, e, f, g]
  | _ => st

/-- Compress one 64-byte chunk into the running 8-word state. -/
def compressChunk (hs : List Nat) (chunk : List Nat) : List Nat :=
  let w := extendWords (toWordsBE chunk)
  let fin := (List.range 64).foldl (sha256Round w) hs
  List.zipWith add32 hs fin

/-- Split a list into 64-byte chunks (fuel-based so that it reduces in the kernel;
the fuel `l.length` always suffices since each step consumes 64 bytes). -/
def chunksOf64Aux : Nat → List Nat → List (List Nat)
  | 0, _ => []
  | _, [] => []
  | fuel + 1, l => l.take 64 :: chunksOf64Aux fuel (l.drop 64)

def chunksOf64 (l : List Nat) : List (List Nat) := chunksOf64Aux l.length l

/-- SHA-256 of a byte list, modelling the external `crypto::sha2::Sha256` engine
behind `fn hash(vec: Vec<u8>) -> Sha256Hash` in the source. -/
def sha256 (msg : List Nat) : List Nat :=
  let hs := (chunksOf64 (padMessage msg)).foldl compressChunk sha256H0
  (hs.map (toBytesBE 4)).flatten


/-- LEB128-style unsigned varint, modelling `integer_encoding::VarInt::encode_var_vec`
for `usize` lengths (fuel-based so it reduces in the kernel; fuel `n` suffices
since the argument at least halves each step). -/
def encodeVarAux : Nat → Nat → List Nat
  | 0, n => [n % 128]
  | fuel + 1, n => if n < 128 then [n] else (n % 128 + 128) :: encodeVarAux fuel (n / 128)

def encodeVar (n : Nat) : List Nat := encodeVarAux n n

/-- The node variants of the trie: a `Leaf` holds the remaining key suffix, the value,
and a cached digest (`Option`, since `InnerNode`s are built with `hash: None`); an
`InnerNode` holds the child map (modelling `HashMap<u8, Box<Node>>` as a function) and
a cached digest. -/
inductive Node where
  | leaf (remaining_key : List Nat) (value : List Nat) (hash : Option (List Nat))
  | inner (map : Nat → Option Node) (hash : Option (List Nat))

/-- `HashMap::insert`: overwrite the entry at `k`. -/
def mapInsert (m : Nat → Option Node) (k : Nat) (v : Node) : Nat → Option Node :=
  fun b => if b = k then some v else m b

/-- `HashMap::remove`: delete the entry at `k`. -/
def mapRemove (m : Nat → Option Node) (k : Nat) : Nat → Option Node :=
  fun b => if b = k then none else m b

/-- `Leaf::serialize`: tag byte 0x02, then the varint length of the body, then the
body (varint key length, key bytes, varint value length, value bytes). -/
def Leaf.serialize (remaining_key value : List Nat) : List Nat :=
  let inside := encodeVar remaining_key.length ++ remaining_key ++ encodeVar value.length ++ value
  0x02 :: (encodeVar inside.length ++ inside)

/-- `Leaf::new`: build a leaf with its digest eagerly computed from its serialization. -/
def Leaf.new (remaining_key value : List Nat) : Node :=
  .leaf remaining_key value (some (sha256 (Leaf.serialize remaining_key value)))

/-- `Node::my_hash` / `Leaf::my_hash` / `InnerNode::my_hash`: read the cached digest.
The source unwraps the `Option`; `none` here models that panic. -/
def Node.my_hash : Node → Option (List Nat)
  | .leaf _ _ h => h
  | .inner _ h => h

/-- `InnerNode::serialize`: tag byte 0x01, varint body length, then 256 slots in
ascending byte order: 0x00 for an absent child, else varint digest length followed
by the child's cached digest. `none` models the panic of unwrapping a child whose
cached digest is `None`. -/
def InnerNode.serialize (map : Nat → Option Node) : Option (List Nat) :=
  let inside := (List.range 256).foldr (fun i acc =>
    match acc with
    | none => none
    | some rest =>
      match map i with
      | none => some (0x00 :: rest)
      | some node =>
        match node.my_hash with
        | none => none
        | some d => some (encodeVar d.length ++ d ++ rest)) (some [])
  match inside with
  | none => none
  | some inside => some (0x01 :: (encodeVar inside.length ++ inside))

/-- `Node::serialize`: dispatch on the variant. -/
def Node.serialize : Node → Option (List Nat)
  | .leaf rk v _ => some (Leaf.serialize rk v)
  | .inner m _ => InnerNode.serialize m

/-- `Node::add`. The `Except Unit` result models the panics of the source:
`key.split_at(1)` with an empty key, and `remaining_key.remove(0)` with an empty
remaining key. In the Leaf branch the new leaf for `(key, value)` is inserted first
and the re-filed old leaf second, so when both share the same first byte the old
leaf overwrites the new one. The Inner branch removes the child, recurses, and
re-inserts it; the inner's cached `hash` field is left untouched. -/
def Node.add : Node → List Nat → List Nat → Except Unit Node
  | .leaf _ _ _, [], _ => .error ()
  | .leaf remaining_key value _, a :: b, v =>
    match remaining_key with
    | [] => .error ()
    | ra :: rb =>
      let m1 := mapInsert (fun _ => none) a (Leaf.new b v)
      let m2 := mapInsert m1 ra (Leaf.new rb value)
      .ok (.inner m2 none)
  | .inner _ _, [], _ => .error ()
  | .inner m h, a :: b, v =>
    match m a with
    | some node =>
      match node.add b v with
      | .error e => .error e
      | .ok node2 => .ok (.inner (mapInsert (mapRemove m a) a node2) h)
    | none => .ok (.inner (mapInsert m a (Leaf.new b v)) h)

/-- `Node::get`: a Leaf returns its value unconditionally; an Inner splits the key
into first byte and remainder and recurses. `.error ()` models the
`key.split_at(1)` panic on an empty key at an Inner node. -/
def Node.get : Node → List Nat → Except Unit (Option (List Nat))
  | .leaf _ value _, _ => .ok (some value)
  | .inner _ _, [] => .error ()
  | .inner m _, a :: b =>
    match m a with
    | none => .ok none
    | some node => node.get b

/-- The trie facade: holds the optional root node. -/
structure Tree where
  root : Option Node

/-- `Tree::default`: the empty trie. -/
def Tree.default : Tree := ⟨none⟩

/-- `Tree::add`: install a fresh leaf holding the whole key when empty, else delegate
to `Node::add` on the root. (The source passes a 32-byte `Sha256Hash` key.) -/
def Tree.add (t : Tree) (key value : List Nat) : Except Unit Tree :=
  match t.root with
  | none => .ok ⟨some (Leaf.new key value)⟩
  | some root =>
    match root.add key value with
    | .error e => .error e
    | .ok root2 => .ok ⟨some root2⟩

/-- `Tree::get`: `none` root means "not found"; else delegate to `Node::get`. -/
def Tree.get (t : Tree) (key : List Nat) : Except Unit (Option (List Nat)) :=
  match t.root with
  | none => .ok none
  | some root => root.get key

/-- `Tree::hash`: digest of the single byte 0x00 when empty, else the root's cached
digest; `none` models the panic of unwrapping a root whose digest is `None`. -/
def Tree.hash (t : Tree) : Option (List Nat) :=
  match t.root with
  | none => some (sha256 [0x00])
  | some root => root.my_hash

/-- `Tree::is_empty`. -/
def Tree.is_empty (t : Tree) : Bool := t.root.isNone

/-- Number of present children of a node (0 for a leaf). -/
def Node.childCount : Node → Nat
  | .leaf _ _ _ => 0
  | .inner m _ => ((List.range 256).filter (fun i => (m i).isSome)).length

def key0 : List Nat := List.replicate 32 0

def key1 : List Nat := List.replicate 32 1

def key01 : List Nat := 0 :: 1 :: List.replicate 30 0


/-- Whether a node is an `InnerNode`. -/
def Node.isInner : Node → Bool
  | .leaf _ _ _ => false
  | .inner _ _ => true

/-- One call of the public facade, for reasoning about call sequences. -/
inductive Op where
  | add (key value : List Nat)
  | get (key : List Nat)
  | rootDigest
  | isEmpty

/-- Apply one facade call to the trie; `none` models a panic aborting the run
(`Tree::add`/`Tree::get` hitting an empty-key split, or `Tree::hash` unwrapping a
`None` digest). `get`, `rootDigest` and `isEmpty` take `&self` and leave the trie
unchanged. -/
def applyOp (t : Tree) : Op → Option Tree
  | .add k v =>
    match Tree.add t k v with
    | .error _ => none
    | .ok t2 => some t2
  | .get k =>
    match Tree.get t k with
    | .error _ => none
    | .ok _ => some t
  | .rootDigest =>
    match Tree.hash t with
    | none => none
    | some _ => some t
  | .isEmpty => some t

/-- Run a sequence of facade calls, stopping at the first panic. -/
def run : Tree → List Op → Option Tree
  | t, [] => some t
  | t, op :: ops =>
    match applyOp t op with
    | none => none
    | some t2 => run t2 ops

theorem add_root_isSome (t t2 : Tree) (k v : List Nat) (h : Tree.add t k v = .ok t2) :
    t2.root.isSome = true := by
  unfold Tree.add at h
  split at h
  · injection h with h2; subst h2; rfl
  · split at h
    · exact absurd h (by simp)
    · injection h with h2; subst h2; rfl

theorem applyOp_root_isSome (t t2 : Tree) (op : Op) (hroot : t.root.isSome = true)
    (h : applyOp t op = some t2) : t2.root.isSome = true := by
  cases op with
  | add k v =>
    simp only [applyOp] at h
    split at h
    · exact absurd h (by simp)
    · next t3 hadd =>
      injection h with h2
      subst h2
      exact add_root_isSome t t3 k v hadd
  | get k =>
    simp only [applyOp] at h
    split at h
    · exact absurd h (by simp)
    · injection h with h2; subst h2; exact hroot
  | rootDigest =>
    simp only [applyOp] at h
    split at h
    · exact absurd h (by simp)
    · injection h with h2; subst h2; exact hroot
  | isEmpty =>
    simp only [applyOp] at h; injection h with h2; subst h2; exact hroot

theorem run_root_isSome (ops : List Op) (t t2 : Tree) (hroot : t.root.isSome = true)
    (h : run t ops = some t2) : t2.root.isSome = true := by
  induction ops generalizing t with
  | nil => unfold run at h; injection h with h2; subst h2; exact hroot
  | cons op ops ih =>
    unfold run at h
    split at h
    · exact absurd h (by simp)
    · next t3 ha =>
      exact ih t3 (applyOp_root_isSome t t3 op hroot ha) h

/-- Claim C10: once a first `add` succeeds, the trie never becomes empty again:
after `Tree::add` installs or updates the root, every subsequent sequence of
`add`, `get`, `root_digest` and `is_empty` calls leaves the root present, so
`is_empty` returns `false`. -/
theorem is_empty_false_after_first_add (t0 t1 t2 : Tree) (k v : List Nat) (ops : List Op)
    (h1 : Tree.add t0 k v = .ok t1) (h2 : run t1 ops = some t2) :
    Tree.is_empty t2 = false := by
  have hs := run_root_isSome ops t1 t2 (add_root_isSome t0 t1 k v h1) h2
  unfold Tree.is_empty
  cases hr : t2.root with
  | none => rw [hr] at hs; exact absurd hs (by simp)
  | some n => rfl

/-- Witness for C10 at a concrete run: add the all-zero 32-byte key, then call
`get`, `is_empty` and `root_digest`; the trie stays non-empty. -/
theorem is_empty_false_after_first_add_witness :
    Tree.is_empty ⟨some (Leaf.new key0 [2])⟩ = false :=
  is_empty_false_after_first_add ⟨none⟩ ⟨some (Leaf.new key0 [2])⟩
    ⟨some (Leaf.new key0 [2])⟩ key0 [2] [.get key0, .isEmpty, .rootDigest] rfl rfl

/-- Claim C1 (the code violates it): insert the all-zero 32-byte key with value
[1], then insert `key01` (same first byte, different second byte) with value
[2]; reading `key01` back returns [1] rather than [2], because the leaf split
re-files the old leaf into the same slot as the new one, overwriting it. -/
theorem get_after_add_loses_value_on_shared_first_byte :
    ((Tree.add ⟨none⟩ key0 [1]).bind (fun t => t.add key01 [2])).bind
      (fun t => t.get key01) = .ok (some [1]) ∧
    some [1] ≠ some ([2] : List Nat) :=
  ⟨rfl, by decide⟩

/-- Claim C2 (the code violates it): after inserting two keys that differ in
their first byte, the root is an `InnerNode` whose cached digest is `None`
(`InnerNode::update` is never called), even though its canonical encoding — and
hence the digest the invariant demands — is well defined. -/
theorem inner_root_digest_not_maintained :
    ((Tree.add ⟨none⟩ key0 [1]).bind (fun t => t.add key1 [2])).map
      (fun t => t.root.map Node.my_hash) = .ok (some none) ∧
    ((Tree.add ⟨none⟩ key0 [1]).bind (fun t => t.add key1 [2])).map
      (fun t => (t.root.bind Node.serialize).isSome) = .ok true :=
  ⟨rfl, rfl⟩

/-- Claim C3 counterexample: adding value [1] under the all-zero key and then
value [2] under the same key does not overwrite — `get` returns the first
value [1], not [2], because the second add splits the leaf and the re-filed
old leaf overwrites the new one in the shared slot. -/
theorem readd_same_key_returns_first_value :
    ((Tree.add ⟨none⟩ key0 [1]).bind (fun t => t.add key0 [2])).bind
      (fun t => t.get key0) = .ok (some [1]) ∧
    some [1] ≠ some ([2] : List Nat) :=
  ⟨rfl, by decide⟩

/-- Claim C3 amended: after `add(k, v1)` followed by `add(k, v2)` on an
initially empty trie, `get(k)` returns the first value `v1` (the earlier
insert wins; the later one is lost in the split). -/
theorem readd_same_key_first_value_wins (k v1 v2 : List Nat) (hk : k ≠ []) :
    ((Tree.add ⟨none⟩ k v1).bind (fun t => t.add k v2)).bind (fun t => t.get k) =
      .ok (some v1) := by
  cases k with
  | nil => exact absurd rfl hk
  | cons a b =>
    simp [Tree.add, Tree.get, Node.add, Node.get, Leaf.new, mapInsert, Except.bind]

/-- Witness for the amended C3 at the all-zero 32-byte key. -/
theorem readd_same_key_first_value_wins_witness :
    ((Tree.add ⟨none⟩ key0 [1]).bind (fun t => t.add key0 [2])).bind
      (fun t => t.get key0) = .ok (some [1]) :=
  readd_same_key_first_value_wins key0 [1] [2] (by decide)

/-- Claim C4 (the code violates it): splitting a leaf on a key that shares its
first byte with the leaf's remaining key produces an `InnerNode` with exactly
one child, not at least two — the insertion does not recurse on the shared
slot, it overwrites. -/
theorem split_on_shared_first_byte_single_child :
    ((Tree.add ⟨none⟩ key0 [1]).bind (fun t => t.add key01 [2])).map
      (fun t => t.root.map Node.isInner) = .ok (some true) ∧
    ((Tree.add ⟨none⟩ key0 [1]).bind (fun t => t.add key01 [2])).map
      (fun t => t.root.map Node.childCount) = .ok (some 1) :=
  ⟨rfl, rfl⟩

/-- Claim C5: `Node::get` returns a Leaf's value unconditionally (no comparison
with `remaining_key`), and at an `InnerNode` splits the key into first byte and
remainder, returns not-found when no child exists at that byte, and otherwise
recurses into the child with the remainder. -/
theorem get_leaf_unconditional_inner_descends :
    (∀ (rk v : List Nat) (h : Option (List Nat)) (key : List Nat),
       Node.get (.leaf rk v h) key = .ok (some v)) ∧
    (∀ (m : Nat → Option Node) (h : Option (List Nat)) (a : Nat) (b : List Nat),
       Node.get (.inner m h) (a :: b) =
         match m a with
         | none => .ok none
         | some node => node.get b) := by
  constructor
  · intro rk v h key
    cases key <;> rfl
  · intro m h a b
    cases hm : m a <;> simp [Node.get, hm]

/-- Claim C6 counterexample: a single split of the leaf holding key [0] with a
key [1] yields an `InnerNode` (the add succeeds), and `get` on it with an empty
leftover key faults — modelling the `key.split_at(1)` out-of-bounds panic —
instead of returning not-found. -/
theorem get_empty_key_at_inner_faults :
    ((Node.add (Leaf.new [0] [1]) [1] [2]).bind (fun n => n.get [])) = .error () ∧
    (Node.add (Leaf.new [0] [1]) [1] [2]).map (fun _ => ()) = .ok () :=
  ⟨rfl, rfl⟩

/-- Claim C6 amended: with a nonempty leftover key, reaching an `InnerNode` with
no child at the key's first byte returns not-found without error; but `get` on
an `InnerNode` with an empty leftover key faults (`key.split_at(1)` panics)
rather than returning not-found. -/
theorem get_not_found_needs_nonempty_key :
    (∀ (m : Nat → Option Node) (h : Option (List Nat)) (a : Nat) (b : List Nat),
       m a = none → Node.get (.inner m h) (a :: b) = .ok none) ∧
    (∀ (m : Nat → Option Node) (h : Option (List Nat)),
       Node.get (.inner m h) [] = .error ()) := by
  constructor
  · intro m h a b hm
    show (match m a with
          | none => Except.ok none
          | some node => node.get b) = .ok none
    rw [hm]
  · intro m h
    rfl

/-- Witness for the amended C6 on the empty child map. -/
theorem get_not_found_needs_nonempty_key_witness :
    Node.get (.inner (fun _ => none) none) [0] = .ok none ∧
    Node.get (.inner (fun _ => none) none) [] = .error () :=
  ⟨get_not_found_needs_nonempty_key.1 (fun _ => none) none 0 [] rfl,
   get_not_found_needs_nonempty_key.2 (fun _ => none) none⟩

/-- Claim C7: `Tree::hash` of the empty trie is the digest of the single byte
0x00, and on a non-empty trie whose root carries a cached digest it returns
exactly that digest. -/
theorem root_digest_empty_constant_else_cached :
    Tree.hash ⟨none⟩ = some (sha256 [0x00]) ∧
    ∀ (n : Node) (d : List Nat), n.my_hash = some d → Tree.hash ⟨some n⟩ = some d := by
  refine ⟨rfl, fun n d h => ?_⟩
  show n.my_hash = some d
  exact h

/-- Witness for C7 at a concrete leaf root. -/
theorem root_digest_empty_constant_else_cached_witness :
    Tree.hash ⟨some (Leaf.new [1] [2])⟩ = some (sha256 (Leaf.serialize [1] [2])) :=
  root_digest_empty_constant_else_cached.2 (Leaf.new [1] [2])
    (sha256 (Leaf.serialize [1] [2])) rfl

/-- Claim C8: the leaf with `remaining_key = [0x01]` and `value = [0x02]`
serializes to exactly [0x02, 0x04, 0x01, 0x01, 0x01, 0x02]. -/
theorem leaf_serialize_fixture :
    Leaf.serialize [0x01] [0x02] = [0x02, 0x04, 0x01, 0x01, 0x01, 0x02] := rfl

/-- Claim C9 (the code violates it): inserting two distinct keys that differ in
their first byte — in either order — leaves the root an `InnerNode` whose digest
was never computed, so `Tree::hash` panics (`none`) instead of producing a
root digest. -/
theorem root_digest_panics_on_two_keys_both_orders :
    ((Tree.add ⟨none⟩ key0 [1]).bind (fun t => t.add key1 [2])).map Tree.hash = .ok none ∧
    ((Tree.add ⟨none⟩ key1 [2]).bind (fun t => t.add key0 [1])).map Tree.hash = .ok none :=
  ⟨rfl, rfl⟩

end AuthTree
